import Mathlib

/-!
Verification of the SRT-emission core of `whisper_asr/main.py`.

The Python source is shallowly embedded: its numeric values (Python floats
holding second offsets) are idealized as exact rationals `ℚ`, Python `int`
is `Int`, and strings are Lean `String`s.  Python's `int()` conversion
(truncation toward zero), `%` on numbers (the result carries the divisor's
sign) and `//` on integers (floor division) are embedded explicitly below.
-/

namespace WhisperASR

/-- Character constant used by the path-splitting code. -/
def dotChar : Char := ('.')

/-- Path separator (POSIX). -/
def sepChar : Char := ('/')

/-- List of `n` copies of the padding character used by Python's `{:0w}` format. -/
def zeroes (n : Nat) : List Char := List.replicate n ('0')

/-- Python's zero padding of a digit string to width `w`, as in `f"{n:02}"`. -/
def zeroPad (w : Nat) (s : String) : String :=
  String.mk (zeroes (w - s.length)) ++ s

/-- Rendering of a natural number zero-padded to width `w`. -/
def padNat (w n : Nat) : String := zeroPad w (Nat.repr n)

/-- Python's `f"{n:0w}"` for an `int`: the sign, when present, counts toward the width. -/
def padInt (w : Nat) (n : Int) : String :=
  if n < 0 then "-" ++ zeroPad (w - 1) (Nat.repr (-n).toNat)
  else zeroPad w (Nat.repr n.toNat)

/-- Python's `int()` on a number: truncation toward zero. -/
def pyint (q : ℚ) : Int := if q < 0 then -⌊-q⌋ else ⌊q⌋

/-- Python's `q % 1` on a number: `q - 1 * floor (q / 1)`, i.e. the fractional part. -/
def pymodOne (q : ℚ) : ℚ := q - ⌊q⌋

/-- Embedding of `format_timestamp` (main.py lines 80–96).  Mirrors
`milliseconds = int((seconds % 1) * 1000)`, `seconds = int(seconds)`,
`minutes = seconds // 60`, `seconds = seconds % 60`, `hours = minutes // 60`,
`minutes = minutes % 60` and the final
`f"{hours:02}:{minutes:02}:{seconds:02},{milliseconds:03}"`;
Python's `//` and `%` on ints are floor division and floor modulus. -/
def format_timestamp (seconds : ℚ) : String :=
  let milliseconds : Int := pyint (pymodOne seconds * 1000)
  let seconds1 : Int := pyint seconds
  let minutes : Int := Int.fdiv seconds1 60
  let seconds2 : Int := Int.fmod seconds1 60
  let hours : Int := Int.fdiv minutes 60
  let minutes1 : Int := Int.fmod minutes 60
  padInt 2 hours ++ ":" ++ padInt 2 minutes1 ++ ":" ++ padInt 2 seconds2 ++
    "," ++ padInt 3 milliseconds

/-! Helper lemmas about the embedded Python primitives. -/

theorem pyint_of_nonneg {q : ℚ} (h : 0 ≤ q) : pyint q = ⌊q⌋ := by
  simp only [pyint, if_neg (not_lt.mpr h)]

theorem pymodOne_nonneg (q : ℚ) : 0 ≤ pymodOne q :=
  sub_nonneg.mpr (Int.floor_le q)

theorem pymodOne_lt_one (q : ℚ) : pymodOne q < 1 := by
  have := Int.lt_floor_add_one q
  simp only [pymodOne]
  linarith

theorem padInt_natCast (w : Nat) (n : Nat) : padInt w (n : Int) = padNat w n := by
  simp [padInt, padNat]

/-- Decomposition of `format_timestamp` into its components on a non-negative input:
the rendered fields are floor-seconds divided into hours/minutes/seconds and the
truncated milliseconds of the fractional part. -/
theorem format_timestamp_decomp (s : ℚ) (h : 0 ≤ s) :
    format_timestamp s =
      padNat 2 (⌊s⌋.toNat / 3600) ++ ":" ++ padNat 2 (⌊s⌋.toNat / 60 % 60) ++ ":" ++
        padNat 2 (⌊s⌋.toNat % 60) ++ "," ++ padNat 3 (⌊(s - ⌊s⌋) * 1000⌋.toNat) := by
  have hms : (0 : ℚ) ≤ pymodOne s * 1000 :=
    mul_nonneg (pymodOne_nonneg s) (by norm_num)
  have hfl : (0 : Int) ≤ ⌊s⌋ := Int.floor_nonneg.mpr h
  have hmf : (0 : Int) ≤ ⌊pymodOne s * 1000⌋ := Int.floor_nonneg.mpr hms
  obtain ⟨n, hn⟩ : ∃ n : Nat, ⌊s⌋ = (n : Int) := ⟨_, (Int.toNat_of_nonneg hfl).symm⟩
  obtain ⟨m, hm⟩ : ∃ m : Nat, ⌊pymodOne s * 1000⌋ = (m : Int) :=
    ⟨_, (Int.toNat_of_nonneg hmf).symm⟩
  show padInt 2 (Int.fdiv (Int.fdiv (pyint s) 60) 60) ++ ":" ++
      padInt 2 (Int.fmod (Int.fdiv (pyint s) 60) 60) ++ ":" ++
      padInt 2 (Int.fmod (pyint s) 60) ++ "," ++ padInt 3 (pyint (pymodOne s * 1000)) =
    padNat 2 (⌊s⌋.toNat / 3600) ++ ":" ++ padNat 2 (⌊s⌋.toNat / 60 % 60) ++ ":" ++
      padNat 2 (⌊s⌋.toNat % 60) ++ "," ++ padNat 3 (⌊pymodOne s * 1000⌋.toNat)
  rw [pyint_of_nonneg h, pyint_of_nonneg hms, hn, hm]
  have c60 : (60 : Int) = ((60 : Nat) : Int) := by norm_cast
  simp only [Int.toNat_natCast, c60, ← Int.ofNat_fdiv, ← Int.ofNat_fmod, padInt_natCast]
  rw [Nat.div_div_eq_div_mul]

/-! Length facts about decimal rendering and zero padding. -/

theorem zeroPad_length (w : Nat) (s : String) : (zeroPad w s).length = max w s.length := by
  rw [zeroPad, String.length_append]
  show (zeroes (w - s.length)).length + s.length = max w s.length
  simp only [zeroes, List.length_replicate]
  omega

theorem padNat_length (w n : Nat) : (padNat w n).length = max w (Nat.repr n).length :=
  zeroPad_length w (Nat.repr n)

theorem padNat_length_of_le {w n : Nat} (h : (Nat.repr n).length ≤ w) :
    (padNat w n).length = w := by
  rw [padNat_length]; omega

theorem toDigitsCore_step (f n : Nat) (l : List Char) (hn : n / 10 ≠ 0) :
    Nat.toDigitsCore 10 (f + 1) n l =
      Nat.toDigitsCore 10 f (n / 10) (Nat.digitChar (n % 10) :: l) := by
  conv_lhs => rw [Nat.toDigitsCore]
  rw [if_neg hn]

theorem toDigitsCore_length_ge : ∀ (f n : Nat) (l : List Char),
    l.length + 1 ≤ (Nat.toDigitsCore 10 (f + 1) n l).length
  | 0, n, l => by
    by_cases hc : n / 10 = 0
    · simp [Nat.toDigitsCore, hc]
    · rw [toDigitsCore_step 0 n l hc]
      simp [Nat.toDigitsCore]
  | f + 1, n, l => by
    by_cases hc : n / 10 = 0
    · conv_rhs => rw [Nat.toDigitsCore]
      rw [if_pos hc]
      simp
    · rw [toDigitsCore_step (f + 1) n l hc]
      have := toDigitsCore_length_ge f (n / 10) (Nat.digitChar (n % 10) :: l)
      simp only [List.length_cons] at this
      omega

theorem nat_repr_length_ge_three {n : Nat} (h : 100 ≤ n) : 3 ≤ (Nat.repr n).length := by
  have h1 : n / 10 ≠ 0 := by omega
  have h2 : n / 10 / 10 ≠ 0 := by omega
  show 3 ≤ (Nat.toDigitsCore 10 (n + 1) n []).length
  rw [toDigitsCore_step n n [] h1]
  obtain ⟨f, hf⟩ : ∃ f, n = f + 1 := ⟨n - 1, by omega⟩
  rw [hf] at h2 ⊢
  rw [toDigitsCore_step f ((f + 1) / 10) _ h2]
  obtain ⟨g, hg⟩ : ∃ g, f = g + 1 := ⟨f - 1, by omega⟩
  rw [hg]
  have := toDigitsCore_length_ge g ((g + 1 + 1) / 10 / 10)
    (Nat.digitChar ((g + 1 + 1) / 10 % 10) :: Nat.digitChar ((g + 1 + 1) % 10) :: [])
  simp only [List.length_cons, List.length_nil] at this
  omega

/-- C2: for every non-negative number of seconds `s`, `format_timestamp s` renders
`HH:MM:SS,mmm` where `mmm` is the fractional part of `s` times 1000 truncated (floor
bounds stated explicitly), `SS` is `floor s mod 60`, `MM` is `floor s div 60 mod 60`,
`HH` is `floor s div 3600` padded to at least 2 digits, and 100 hours or more render
with more than 2 digits. -/
theorem format_timestamp_contract (s : ℚ) (h : 0 ≤ s) :
    format_timestamp s =
      padNat 2 (⌊s⌋.toNat / 3600) ++ ":" ++ padNat 2 (⌊s⌋.toNat / 60 % 60) ++ ":" ++
        padNat 2 (⌊s⌋.toNat % 60) ++ "," ++ padNat 3 (⌊(s - ⌊s⌋) * 1000⌋.toNat)
    ∧ ((⌊(s - ⌊s⌋) * 1000⌋ : ℚ) ≤ (s - ⌊s⌋) * 1000
        ∧ (s - ⌊s⌋) * 1000 < ⌊(s - ⌊s⌋) * 1000⌋ + 1)
    ∧ 2 ≤ (padNat 2 (⌊s⌋.toNat / 3600)).length
    ∧ (100 ≤ ⌊s⌋.toNat / 3600 → 3 ≤ (padNat 2 (⌊s⌋.toNat / 3600)).length) := by
  refine ⟨format_timestamp_decomp s h,
    ⟨Int.floor_le _, Int.lt_floor_add_one _⟩, ?_, ?_⟩
  · rw [padNat_length]; omega
  · intro hh
    rw [padNat_length]
    have := nat_repr_length_ge_three hh
    omega

/-- C2 witness: the contract instantiated at 61.5 seconds. -/
theorem format_timestamp_contract_witness :
    format_timestamp 61.5 =
      padNat 2 (⌊(61.5 : ℚ)⌋.toNat / 3600) ++ ":" ++ padNat 2 (⌊(61.5 : ℚ)⌋.toNat / 60 % 60)
        ++ ":" ++ padNat 2 (⌊(61.5 : ℚ)⌋.toNat % 60) ++ ","
        ++ padNat 3 (⌊((61.5 : ℚ) - ⌊(61.5 : ℚ)⌋) * 1000⌋.toNat)
    ∧ ((⌊((61.5 : ℚ) - ⌊(61.5 : ℚ)⌋) * 1000⌋ : ℚ) ≤ ((61.5 : ℚ) - ⌊(61.5 : ℚ)⌋) * 1000
        ∧ ((61.5 : ℚ) - ⌊(61.5 : ℚ)⌋) * 1000 < ⌊((61.5 : ℚ) - ⌊(61.5 : ℚ)⌋) * 1000⌋ + 1)
    ∧ 2 ≤ (padNat 2 (⌊(61.5 : ℚ)⌋.toNat / 3600)).length
    ∧ (100 ≤ ⌊(61.5 : ℚ)⌋.toNat / 3600 → 3 ≤ (padNat 2 (⌊(61.5 : ℚ)⌋.toNat / 3600)).length) :=
  format_timestamp_contract 61.5 (by norm_num)

/-- C3: the timestamp formatter satisfies the spec's concrete test vectors, with
1.9999 truncating the milliseconds rather than rounding up. -/
theorem format_timestamp_vectors :
    format_timestamp 0 = "00:00:00,000" ∧ format_timestamp 61.5 = "00:01:01,500" ∧
    format_timestamp 3661.001 = "01:01:01,001" ∧ format_timestamp 1.9999 = "00:00:01,999" := by
  refine ⟨?_, ?_, ?_, ?_⟩ <;>
    rw [format_timestamp_decomp _ (by norm_num)] <;>
    norm_num <;> decide

/-- C9: on non-negative input the minute, second and millisecond fields are in range
(0–59, 0–59, 0–999) and render with exactly 2, 2 and 3 digits respectively, while the
hour field has at least 2 digits, so the output matches the shape `H+:MM:SS,mmm`. -/
theorem format_timestamp_shape (s : ℚ) (h : 0 ≤ s) :
    ⌊s⌋.toNat / 60 % 60 < 60 ∧ ⌊s⌋.toNat % 60 < 60 ∧ ⌊(s - ⌊s⌋) * 1000⌋.toNat < 1000 ∧
    (padNat 2 (⌊s⌋.toNat / 60 % 60)).length = 2 ∧ (padNat 2 (⌊s⌋.toNat % 60)).length = 2 ∧
    (padNat 3 (⌊(s - ⌊s⌋) * 1000⌋.toNat)).length = 3 ∧
    2 ≤ (padNat 2 (⌊s⌋.toNat / 3600)).length ∧
    format_timestamp s =
      padNat 2 (⌊s⌋.toNat / 3600) ++ ":" ++ padNat 2 (⌊s⌋.toNat / 60 % 60) ++ ":" ++
        padNat 2 (⌊s⌋.toNat % 60) ++ "," ++ padNat 3 (⌊(s - ⌊s⌋) * 1000⌋.toNat) := by
  have hmb : ⌊(s - ⌊s⌋) * 1000⌋.toNat < 1000 := by
    have h2 : s - ⌊s⌋ < 1 := pymodOne_lt_one s
    have h1 : (s - ⌊s⌋) * 1000 < 1000 := by nlinarith
    have h3 : ⌊(s - ⌊s⌋) * 1000⌋ < 1000 := Int.floor_lt.mpr (by exact_mod_cast h1)
    omega
  have hp : (10 : Nat) ^ 2 = 100 := by norm_num
  have hq : (10 : Nat) ^ 3 = 1000 := by norm_num
  have hm1 : ⌊s⌋.toNat / 60 % 60 < 60 := Nat.mod_lt _ (by norm_num)
  have hs1 : ⌊s⌋.toNat % 60 < 60 := Nat.mod_lt _ (by norm_num)
  refine ⟨hm1, hs1, hmb, ?_, ?_, ?_, ?_, format_timestamp_decomp s h⟩
  · exact padNat_length_of_le (Nat.repr_length _ 2 (by norm_num) (by omega))
  · exact padNat_length_of_le (Nat.repr_length _ 2 (by norm_num) (by omega))
  · exact padNat_length_of_le (Nat.repr_length _ 3 (by norm_num) (by omega))
  · rw [padNat_length]; omega

/-- C9 witness: the shape invariant instantiated at 3661.001 seconds. -/
theorem format_timestamp_shape_witness :
    ⌊(3661.001 : ℚ)⌋.toNat / 60 % 60 < 60 ∧ ⌊(3661.001 : ℚ)⌋.toNat % 60 < 60 ∧
    ⌊((3661.001 : ℚ) - ⌊(3661.001 : ℚ)⌋) * 1000⌋.toNat < 1000 ∧
    (padNat 2 (⌊(3661.001 : ℚ)⌋.toNat / 60 % 60)).length = 2 ∧
    (padNat 2 (⌊(3661.001 : ℚ)⌋.toNat % 60)).length = 2 ∧
    (padNat 3 (⌊((3661.001 : ℚ) - ⌊(3661.001 : ℚ)⌋) * 1000⌋.toNat)).length = 3 ∧
    2 ≤ (padNat 2 (⌊(3661.001 : ℚ)⌋.toNat / 3600)).length ∧
    format_timestamp 3661.001 =
      padNat 2 (⌊(3661.001 : ℚ)⌋.toNat / 3600) ++ ":" ++
        padNat 2 (⌊(3661.001 : ℚ)⌋.toNat / 60 % 60) ++ ":" ++
        padNat 2 (⌊(3661.001 : ℚ)⌋.toNat % 60) ++ "," ++
        padNat 3 (⌊((3661.001 : ℚ) - ⌊(3661.001 : ℚ)⌋) * 1000⌋.toNat) :=
  format_timestamp_shape 3661.001 (by norm_num)

/-! Embedding of the SRT writer inside `transcribe_video` (main.py lines 67–75). -/

/-- One transcription segment as read from `result["segments"]`: the fields
`id`, `start`, `end` and `text` that the write loop consumes. -/
structure Segment where
  id : Int
  start : ℚ
  «end» : ℚ
  text : String

/-- One SRT block as written by the loop body (main.py lines 73–75):
`f"{segment['id'] + 1}\n"`, then the timing line, then the text and a blank line. -/
def srtBlock (seg : Segment) : String :=
  toString (seg.id + 1) ++ "\n" ++
    format_timestamp seg.start ++ " --> " ++ format_timestamp seg.«end» ++ "\n" ++
    seg.text ++ "\n\n"

/-- The full file content produced by the write loop: the blocks of the segments,
in input order, concatenated. -/
def srtDocument (segments : List Segment) : String :=
  String.join (segments.map srtBlock)

/-- Evaluation of one block whose timestamps are integral seconds below one minute. -/
theorem srtBlock_small (idv : Int) (a b : Nat) (ha : a < 60) (hb : b < 60) (t : String) :
    srtBlock ⟨idv, (a : ℚ), (b : ℚ), t⟩ =
      toString (idv + 1) ++ "\n" ++
        ("00:00:" ++ padNat 2 a ++ ",000") ++ " --> " ++
        ("00:00:" ++ padNat 2 b ++ ",000") ++ "\n" ++ t ++ "\n\n" := by
  have key : ∀ n : Nat, n < 60 → format_timestamp (n : ℚ) = "00:00:" ++ padNat 2 n ++ ",000" := by
    intro n hn
    rw [format_timestamp_decomp _ (by positivity)]
    rw [Int.floor_natCast]
    simp only [Int.toNat_natCast]
    rw [Nat.div_eq_of_lt (by omega), Nat.div_eq_of_lt (by omega), Nat.mod_eq_of_lt hn]
    push_cast
    rw [sub_self, zero_mul, Int.floor_zero, Int.toNat_zero]
    show padNat 2 0 ++ ":" ++ padNat 2 (0 % 60) ++ ":" ++ padNat 2 n ++ "," ++ padNat 3 0 = _
    rw [Nat.zero_mod]
    have e1 : padNat 2 0 = "00" := by decide
    have e2 : padNat 3 0 = "000" := by decide
    rw [e1, e2]
    simp [String.append_assoc]
  show toString (idv + 1) ++ "\n" ++ format_timestamp (a : ℚ) ++ " --> " ++
      format_timestamp (b : ℚ) ++ "\n" ++ t ++ "\n\n" = _
  rw [key a ha, key b hb]

/-- C1 counterexample: a single segment whose attached id is 5 yields a first (and
only) block whose index line is "6", not "1", so block numbering is not independent
of the attached id. -/
theorem srt_index_not_renumbered :
    srtDocument [⟨5, 0, 1, "a"⟩] = "6\n00:00:00,000 --> 00:00:01,000\na\n\n" ∧
    (srtDocument [⟨5, 0, 1, "a"⟩]).data.head? = some ('6') ∧
    (srtDocument [⟨5, 0, 1, "a"⟩]).data.head? ≠ some ('1') := by
  have hb : srtBlock ⟨5, 0, 1, "a"⟩ = "6\n00:00:00,000 --> 00:00:01,000\na\n\n" := by
    have h0 : ((0 : ℚ)) = ((0 : Nat) : ℚ) := by norm_num
    have h1 : ((1 : ℚ)) = ((1 : Nat) : ℚ) := by norm_num
    rw [show (⟨5, 0, 1, "a"⟩ : Segment) = ⟨5, ((0 : Nat) : ℚ), ((1 : Nat) : ℚ), "a"⟩ by
      rw [h0, h1]]
    rw [srtBlock_small 5 0 1 (by norm_num) (by norm_num) ("a")]
    decide
  have hd : srtDocument [⟨5, 0, 1, "a"⟩] = "6\n00:00:00,000 --> 00:00:01,000\na\n\n" := by
    show String.join [srtBlock ⟨5, 0, 1, "a"⟩] = _
    rw [hb]
    rfl
  refine ⟨hd, ?_, ?_⟩ <;> rw [hd] <;> decide

/-- C1 amended: the index line of the k-th emitted block is the k-th segment's
attached id plus 1; when the segments carry the sequential 0-based ids `0, 1, ...`
produced by the transcription library, the blocks are numbered `1, 2, ...` in input
order. -/
theorem srt_index_lines_with_sequential_ids (segs : List Segment) (k : Nat)
    (hk : k < segs.length)
    (hids : ∀ i (hi : i < segs.length), (segs.get ⟨i, hi⟩).id = i) :
    ∃ rest : String,
      (segs.map srtBlock)[k]? = some (Nat.repr (k + 1) ++ "\n" ++ rest) := by
  refine ⟨format_timestamp (segs.get ⟨k, hk⟩).start ++ " --> " ++
    format_timestamp (segs.get ⟨k, hk⟩).«end» ++ "\n" ++
    (segs.get ⟨k, hk⟩).text ++ "\n\n", ?_⟩
  rw [List.getElem?_map, List.getElem?_eq_getElem hk]
  simp only [Option.map_some']
  congr 1
  show srtBlock (segs.get ⟨k, hk⟩) = _
  rw [srtBlock]
  rw [hids k hk]
  have hrepr : toString ((k : Int) + 1) = Nat.repr (k + 1) := by
    rw [show ((k : Int) + 1) = ((k + 1 : Nat) : Int) by push_cast; ring]
    rfl
  rw [hrepr]
  simp [String.append_assoc]

/-- C1 amended witness: with three segments carrying ids 0, 1, 2, the block at
position 1 is numbered "2". -/
theorem srt_index_lines_with_sequential_ids_witness :
    ∃ rest : String,
      (([⟨0, 0, 1, "a"⟩, ⟨1, 1, 2, "b"⟩, ⟨2, 2, 3, "c"⟩] : List Segment).map
        srtBlock)[1]? = some (Nat.repr (1 + 1) ++ "\n" ++ rest) :=
  srt_index_lines_with_sequential_ids _ 1 (by decide) (by decide)

/-- C4 counterexample: for the segment {start: 2.0, end: 5.25, text: "hello"} at
position 1 but carrying attached id 7, the emitted block is
"8\n00:00:02,000 --> 00:00:05,250\nhello\n\n", not the block numbered 1 stated by
the claim, so the emitted block is not a function of (start, end, text) alone. -/
theorem srt_block_example_depends_on_id :
    srtBlock ⟨7, 2, 5.25, "hello"⟩ = "8\n00:00:02,000 --> 00:00:05,250\nhello\n\n" ∧
    srtBlock ⟨7, 2, 5.25, "hello"⟩ ≠ "1\n00:00:02,000 --> 00:00:05,250\nhello\n\n" := by
  have hf2 : format_timestamp 2 = "00:00:02,000" := by
    rw [format_timestamp_decomp _ (by norm_num)]
    norm_num
    decide
  have hf5 : format_timestamp 5.25 = "00:00:05,250" := by
    rw [format_timestamp_decomp _ (by norm_num)]
    norm_num
    decide
  have hb : srtBlock ⟨7, 2, 5.25, "hello"⟩ =
      "8\n00:00:02,000 --> 00:00:05,250\nhello\n\n" := by
    show toString ((7 : Int) + 1) ++ "\n" ++ format_timestamp 2 ++ " --> " ++
        format_timestamp 5.25 ++ "\n" ++ "hello" ++ "\n\n" = _
    rw [hf2, hf5]
    decide
  exact ⟨hb, by rw [hb]; decide⟩

/-- C4 amended: each segment produces exactly the 4-line block whose index line is
the attached id plus 1, the document is the concatenation of the blocks in input
order with no reordering or deduplication, and the round-trip example holds for the
segment with id 0 (position 1 under sequential ids). -/
theorem srt_block_structure :
    (∀ seg : Segment, srtBlock seg =
      toString (seg.id + 1) ++ "\n" ++ format_timestamp seg.start ++ " --> " ++
        format_timestamp seg.«end» ++ "\n" ++ seg.text ++ "\n\n")
    ∧ (∀ segments : List Segment,
        srtDocument segments = String.join (segments.map srtBlock))
    ∧ srtBlock ⟨0, 2, 5.25, "hello"⟩ = "1\n00:00:02,000 --> 00:00:05,250\nhello\n\n" := by
  refine ⟨fun _ => rfl, fun _ => rfl, ?_⟩
  have hf2 : format_timestamp 2 = "00:00:02,000" := by
    rw [format_timestamp_decomp _ (by norm_num)]
    norm_num
    decide
  have hf5 : format_timestamp 5.25 = "00:00:05,250" := by
    rw [format_timestamp_decomp _ (by norm_num)]
    norm_num
    decide
  show toString ((0 : Int) + 1) ++ "\n" ++ format_timestamp 2 ++ " --> " ++
      format_timestamp 5.25 ++ "\n" ++ "hello" ++ "\n\n" = _
  rw [hf2, hf5]
  decide

/-! Embedding of the output-path derivation (main.py line 67):
`os.path.splitext(path)[0] + ".en.whisper.srt"`. -/

/-- Last index of `c` in `l`, or `-1` when `c` does not occur: Python's `str.rfind`. -/
def rfindIdx (c : Char) : List Char → Int
  | [] => -1
  | a :: as =>
    if 0 ≤ rfindIdx c as then rfindIdx c as + 1
    else if a = c then 0 else -1

/-- Embedding of CPython's `posixpath.splitext(p)[0]`: find the last separator and
the last dot; when the last dot lies strictly after the last separator and at least
one character of the basename before that dot is not itself a dot (leading dots mark
a hidden file, not an extension), cut at the dot; otherwise return the path
unchanged. -/
def splitextFst (l : List Char) : List Char :=
  let sepIndex := rfindIdx sepChar l
  let dotIndex := rfindIdx dotChar l
  if sepIndex < dotIndex then
    let base := (l.drop (sepIndex + 1).toNat).take (dotIndex - (sepIndex + 1)).toNat
    if base.any (fun ch => ch ≠ dotChar) then l.take dotIndex.toNat else l
  else l

/-- Output path of the SRT writer (main.py line 67). -/
def outputPath (p : String) : String :=
  String.mk (splitextFst p.data) ++ ".en.whisper.srt"

/-! Embedding of the file write. A file system is a map from paths to contents. -/

/-- File-system state: which content each path currently holds. -/
def FileSystem := String → Option String

/-- Opening `path` in mode "w" and writing `content` replaces whatever the path
held before; all other paths are untouched. -/
def writeText (fs : FileSystem) (path content : String) : FileSystem :=
  fun q => if q = path then some content else fs q

/-- The write phase of `transcribe_video` (main.py lines 67–75): derive the output
path from the source path and write all blocks into it. -/
def transcribe_video_write (fs : FileSystem) (srcPath : String)
    (segments : List Segment) : FileSystem :=
  writeText fs (outputPath srcPath) (srtDocument segments)

/-- C6: the write is a full overwrite, so writing the same segment sequence twice
leaves the file system exactly as after the first write, and the resulting content
at the output path does not depend on the previous file-system state. -/
theorem srt_write_idempotent :
    ∀ (fs fs2 : FileSystem) (src : String) (segments : List Segment),
      transcribe_video_write (transcribe_video_write fs src segments) src segments =
        transcribe_video_write fs src segments
      ∧ transcribe_video_write fs src segments (outputPath src) =
          transcribe_video_write fs2 src segments (outputPath src) := by
  intro fs fs2 src segments
  constructor
  · funext q
    show (if q = outputPath src then some (srtDocument segments)
      else transcribe_video_write fs src segments q) = _
    by_cases hq : q = outputPath src
    · rw [if_pos hq]
      show _ = (if q = outputPath src then some (srtDocument segments) else fs q)
      rw [if_pos hq]
    · rw [if_neg hq]
  · show (if outputPath src = outputPath src then some (srtDocument segments) else fs _) =
      (if outputPath src = outputPath src then some (srtDocument segments) else fs2 _)
    rw [if_pos rfl, if_pos rfl]

/-- C10: for the empty segment sequence the output file is still written and its
content is the empty string, and in general the writer emits exactly one block per
input segment. -/
theorem srt_write_empty :
    (∀ (fs : FileSystem) (src : String),
      transcribe_video_write fs src [] (outputPath src) = some (""))
    ∧ (∀ segments : List Segment, (segments.map srtBlock).length = segments.length) := by
  constructor
  · intro fs src
    show (if outputPath src = outputPath src then some (srtDocument []) else fs _) = some ("")
    rw [if_pos rfl]
    rfl
  · intro segments
    exact List.length_map segments srtBlock

/-! Properties of `rfindIdx` and the output-path derivation. -/

theorem rfindIdx_ge_neg_one (c : Char) : ∀ l : List Char, -1 ≤ rfindIdx c l
  | [] => by simp [rfindIdx]
  | a :: as => by
    have ih := rfindIdx_ge_neg_one c as
    simp only [rfindIdx]
    split
    · omega
    · split <;> omega

theorem rfindIdx_getElem (c : Char) : ∀ (l : List Char), 0 ≤ rfindIdx c l →
    l[(rfindIdx c l).toNat]? = some c
  | [], h => by simp [rfindIdx] at h
  | a :: as, h => by
    by_cases hc : 0 ≤ rfindIdx c as
    · have ih := rfindIdx_getElem c as hc
      simp only [rfindIdx, if_pos hc]
      have ht : (rfindIdx c as + 1).toNat = (rfindIdx c as).toNat + 1 := by omega
      rw [ht]
      simpa using ih
    · simp only [rfindIdx, if_neg hc] at h ⊢
      by_cases hac : a = c
      · rw [if_pos hac]
        simp [hac]
      · rw [if_neg hac] at h
        exact absurd h (by norm_num)

theorem mem_drop_of_getElem {l : List Char} {i k : Nat} {c : Char}
    (h : l[i]? = some c) (hk : k ≤ i) : c ∈ l.drop k := by
  have h2 : (l.drop k)[i - k]? = some c := by
    rw [List.getElem?_drop]
    rwa [Nat.add_sub_cancel' hk]
  exact List.getElem?_mem h2

/-- When the basename (the part of the path after the last separator) contains no
dot, `splitext` returns the path unchanged. -/
theorem splitextFst_of_no_dot {l : List Char}
    (h : dotChar ∉ l.drop ((rfindIdx sepChar l + 1).toNat)) : splitextFst l = l := by
  have hd : rfindIdx dotChar l ≤ rfindIdx sepChar l := by
    by_contra hlt
    have hsep := rfindIdx_ge_neg_one sepChar l
    have h0 : 0 ≤ rfindIdx dotChar l := by omega
    have hg := rfindIdx_getElem dotChar l h0
    have hmem : dotChar ∈ l.drop ((rfindIdx sepChar l + 1).toNat) :=
      mem_drop_of_getElem hg (by omega)
    exact h hmem
  unfold splitextFst
  rw [if_neg (by omega : ¬ rfindIdx sepChar l < rfindIdx dotChar l)]

/-- C8: for a source path whose basename contains no dot, extension-stripping is the
identity, so the output path is the source path with ".en.whisper.srt" appended;
in particular "foo/bar" maps to "foo/bar.en.whisper.srt". -/
theorem outputPath_no_extension (p : String)
    (h : dotChar ∉ p.data.drop ((rfindIdx sepChar p.data + 1).toNat)) :
    outputPath p = p ++ ".en.whisper.srt" := by
  unfold outputPath
  rw [splitextFst_of_no_dot h]

/-- C8 witness: the extensionless path "foo/bar". -/
theorem outputPath_no_extension_witness :
    dotChar ∉ ("foo/bar".data.drop ((rfindIdx sepChar ("foo/bar".data) + 1).toNat)) ∧
    outputPath ("foo/bar") = "foo/bar" ++ ".en.whisper.srt" :=
  ⟨by decide, outputPath_no_extension ("foo/bar") (by decide)⟩

/-- C5: the output path is the source path with its final extension stripped
(POSIX `splitext` semantics) followed by the fixed suffix ".en.whisper.srt";
in particular "foo/bar.mp4" maps to "foo/bar.en.whisper.srt". -/
theorem outputPath_derivation :
    (∀ p : String, outputPath p = String.mk (splitextFst p.data) ++ ".en.whisper.srt")
    ∧ splitextFst ("foo/bar.mp4".data) = "foo/bar".data
    ∧ outputPath ("foo/bar.mp4") = "foo/bar.en.whisper.srt" :=
  ⟨fun _ => rfl, by decide, by decide⟩

/-! Embedding of `find_files_with_suffix_glob` (main.py lines 99–113).  The file
system under the scanned directory is abstracted as the list of its files' relative
paths, each a list of name components.  The code builds, for each entry `suffix` of
its suffix list (which already starts with `*`), the pattern
`os.path.join(directory, "**", "*" + suffix)` and calls `glob.glob(..., recursive=True)`:
the `**` component matches any chain of non-hidden directories (including none), and
the final component `**.<ext>` matches exactly the non-hidden names ending in
`.<ext>` (a `*` in `fnmatch` matches any run of characters within one name, and
`glob` skips entries starting with a dot for patterns that do not themselves start
with a dot). -/

/-- A file path relative to the scanned directory, as its list of name components. -/
abbrev RelPath := List String

/-- The suffix list of `find_files_with_suffix_glob` (main.py line 109). -/
def suffixes : List String := ["*.m4a", "*.mp3", "*.webm", "*.mp4", "*.mpga", "*.wav", "*.mpeg"]

/-- Whether a file-system entry name is hidden: Python's glob skips names starting
with a dot. -/
def isHiddenName (comp : String) : Bool :=
  match comp.data with
  | [] => false
  | c :: _ => c = dotChar

/-- Whether `base` ends with the string `ext` (character-wise). -/
def endsWithExt (base ext : String) : Bool := List.isSuffixOf ext.data base.data

/-- A suffix-list entry (`"*.m4a"`, ...) minus its leading `*`: the extension the
glob pattern effectively requires at the end of the file name. -/
def suffixExt (suffix : String) : String := String.mk (List.drop 1 suffix.data)

/-- Whether `glob.glob(directory + "/**/*" + suffix, recursive=True)` returns the
file with the given relative path: no component is hidden and the final component
ends with the suffix minus its leading `*`. -/
def globMatch (suffix : String) (path : RelPath) : Bool :=
  !path.isEmpty &&
  path.all (fun comp => !(isHiddenName comp)) &&
  (match path.getLast? with
   | some base => endsWithExt base (suffixExt suffix)
   | none => false)

/-- Embedding of `find_files_with_suffix_glob`: starting from an empty list, extend
it with the glob matches of each suffix in turn. -/
def find_files_with_suffix_glob (fs : List RelPath) : List RelPath :=
  suffixes.foldl (fun acc suffix => acc ++ fs.filter (fun p => globMatch suffix p)) []

/-- The extensions accepted by the batch driver: the suffix list minus the `*`s. -/
def allowedExts : List String := suffixes.map suffixExt

theorem mem_foldl_append {α β : Type} (f : β → List α) :
    ∀ (L : List β) (acc : List α) (x : α),
      (x ∈ L.foldl (fun a s => a ++ f s) acc ↔ x ∈ acc ∨ ∃ s ∈ L, x ∈ f s)
  | [], acc, x => by simp
  | b :: L, acc, x => by
    simp only [List.foldl_cons]
    rw [mem_foldl_append f L (acc ++ f b) x]
    simp only [List.mem_append, List.mem_cons]
    constructor
    · rintro ((h | h) | ⟨s, hs, hx⟩)
      · exact Or.inl h
      · exact Or.inr ⟨b, Or.inl rfl, h⟩
      · exact Or.inr ⟨s, Or.inr hs, hx⟩
    · rintro (h | ⟨s, (rfl | hs), hx⟩)
      · exact Or.inl (Or.inl h)
      · exact Or.inl (Or.inr hx)
      · exact Or.inr ⟨s, hs, hx⟩

theorem globMatch_last {suffix : String} {p : RelPath} (h : globMatch suffix p = true) :
    ∃ base, p.getLast? = some base ∧ endsWithExt base (suffixExt suffix) = true := by
  unfold globMatch at h
  rw [Bool.and_eq_true, Bool.and_eq_true] at h
  obtain ⟨-, hm⟩ := h
  rcases hl : p.getLast? with _ | base
  · rw [hl] at hm
    simp at hm
  · rw [hl] at hm
    exact ⟨base, rfl, hm⟩

/-- C7: every path returned by directory discovery is one of the files under the
root and its final component ends in one of the allow-listed extensions
`{m4a, mp3, webm, mp4, mpga, wav, mpeg}`; concretely, from the files
`a.mp3`, `b.txt`, `sub/c.MP4`, `sub/d.wav` exactly `a.mp3` and `sub/d.wav` are
returned (`.txt` is rejected, and matching is case-sensitive). -/
theorem find_files_suffix_allowlist :
    allowedExts = [".m4a", ".mp3", ".webm", ".mp4", ".mpga", ".wav", ".mpeg"]
    ∧ (∀ (fs : List RelPath) (p : RelPath), p ∈ find_files_with_suffix_glob fs →
        p ∈ fs ∧ ∃ base, p.getLast? = some base ∧
          allowedExts.any (fun ext => endsWithExt base ext) = true)
    ∧ find_files_with_suffix_glob [["a.mp3"], ["b.txt"], ["sub", "c.MP4"], ["sub", "d.wav"]]
        = [["a.mp3"], ["sub", "d.wav"]] := by
  refine ⟨by decide, ?_, by decide⟩
  intro fs p hp
  rw [find_files_with_suffix_glob, mem_foldl_append] at hp
  rcases hp with h | ⟨s, hs, hpf⟩
  · exact absurd h (List.not_mem_nil p)
  rw [List.mem_filter] at hpf
  obtain ⟨hmem, hmatch⟩ := hpf
  obtain ⟨base, hbase, hends⟩ := globMatch_last hmatch
  refine ⟨hmem, base, hbase, ?_⟩
  rw [List.any_eq_true]
  exact ⟨suffixExt s, List.mem_map_of_mem _ hs, hends⟩

/-- C7 witness: discovery over the file list {a.mp3, b.txt} returns a.mp3, which is
in the list and carries an allow-listed extension. -/
theorem find_files_suffix_allowlist_witness :
    (["a.mp3"] : RelPath) ∈ find_files_with_suffix_glob [["a.mp3"], ["b.txt"]] ∧
    ((["a.mp3"] : RelPath) ∈ ([["a.mp3"], ["b.txt"]] : List RelPath) ∧
      ∃ base, (["a.mp3"] : RelPath).getLast? = some base ∧
        allowedExts.any (fun ext => endsWithExt base ext) = true) :=
  ⟨by decide,
    find_files_suffix_allowlist.2.1 [["a.mp3"], ["b.txt"]] ["a.mp3"] (by decide)⟩

end WhisperASR
